import Mathlib

/-!
Shallow embedding of the `c2k` sockets library (repository mgerhold/sockets)
together with proofs about the embedded operations.

The embedding covers:
* the byte-order codec (`byteswap.hpp`, `byte_order.hpp`),
* the `MessageBuffer` integer codec (`message_buffer.hpp`),
* the canonical stringification of `AddressInfo` (`address_info.hpp`),
* the rendezvous channel endpoints (`channel.hpp`),
* the per-connection engine: queue draining (`ClientSocket::State::clear_queues`),
  the post-shutdown fast path of `send` / `receive*`, and the two task
  processors (`process_send_task`, `process_receive_task`) driven by an
  explicit oracle of OS events.

Machine integers are modelled as `Nat` with explicit width bounds; fallible
code returns `Option` / `Except`-like sum types; interaction with the OS
socket is modelled by an explicit event list consumed one event per loop
iteration.  Deadlines are externalised into the oracle: the event recorded
for an iteration says whether `steady_clock::now() >= end_time` held at the
top of that iteration.
-/

namespace C2k

/-! ### Byte sequences, little- and big-endian codec (byteswap.hpp) -/

/-- Little-endian byte list of width `w` for value `v` (least significant
byte first); mirrors the in-memory representation on a little-endian host. -/
def toBytesLE : Nat → Nat → List Nat
  | 0, _ => []
  | w + 1, v => v % 256 :: toBytesLE w (v / 256)

/-- Decode a little-endian byte list into a value. -/
def fromBytesLE : List Nat → Nat
  | [] => 0
  | b :: rest => b + 256 * fromBytesLE rest

/-- Big-endian byte list of width `w` (most significant byte first). -/
def toBytesBE (w v : Nat) : List Nat :=
  (toBytesLE w v).reverse

/-- Decode a big-endian byte list. -/
def fromBytesBE (l : List Nat) : Nat :=
  fromBytesLE l.reverse

/-- `byteswap` from `byteswap.hpp`: reinterpret the value as its byte array,
reverse the array, reinterpret as a value again.  On a little-endian host the
byte array is the little-endian representation, hence this definition; the
resulting function is the same on a big-endian host. -/
def byteswap (w v : Nat) : Nat :=
  fromBytesLE (toBytesLE w v).reverse

/-! ### Network byte order (byte_order.hpp) -/

/-- Host endianness; `to_network_byte_order` branches on
`std::endian::native == std::endian::big`. -/
inductive Endian
  | big
  | little
deriving DecidableEq

/-- `to_network_byte_order` from `byte_order.hpp`: the identity on a
big-endian host, `byteswap` otherwise. -/
def to_network_byte_order (e : Endian) (w v : Nat) : Nat :=
  match e with
  | .big => v
  | .little => byteswap w v

/-- `from_network_byte_order` from `byte_order.hpp`: defined as a call to
`to_network_byte_order`. -/
def from_network_byte_order (e : Endian) (w v : Nat) : Nat :=
  to_network_byte_order e w v

/-! ### MessageBuffer (message_buffer.hpp)

A buffer is its byte list.  The C++ code serialises an integer by applying
`to_network_byte_order` and copying the resulting object representation,
which on a host of endianness `e` is `nativeToBytes e`. -/

/-- The in-memory object representation of width-`w` value `v` on a host of
endianness `e`. -/
def nativeToBytes (e : Endian) (w v : Nat) : List Nat :=
  match e with
  | .big => toBytesBE w v
  | .little => toBytesLE w v

/-- Reinterpret a byte list as a value on a host of endianness `e`. -/
def nativeFromBytes (e : Endian) (l : List Nat) : Nat :=
  match e with
  | .big => fromBytesBE l
  | .little => fromBytesLE l

/-- `MessageBuffer::operator<<` for an integral value of width `w`:
convert to network byte order, then append the object representation. -/
def MessageBuffer.appendInt (e : Endian) (buf : List Nat) (w v : Nat) : List Nat :=
  buf ++ nativeToBytes e w (to_network_byte_order e w v)

/-- Fold `operator<<` over a list of (width, value) pairs, as done by the
variadic integer `send` overload and by the round-trip scenario. -/
def MessageBuffer.appendAll (e : Endian) (buf : List Nat) : List (Nat × Nat) → List Nat
  | [] => buf
  | (w, v) :: rest => MessageBuffer.appendAll e (MessageBuffer.appendInt e buf w v) rest

/-- `MessageBuffer::operator>>` for a width-`w` integral target: if fewer
than `w` bytes are stored the extraction fails (`std::runtime_error` in the
source); otherwise the first `w` bytes are reinterpreted as a value and
converted from network byte order, and those bytes are erased. -/
def MessageBuffer.extractInt (e : Endian) (buf : List Nat) (w : Nat) : Option (Nat × List Nat) :=
  if buf.length < w then none
  else some (from_network_byte_order e w (nativeFromBytes e (buf.take w)), buf.drop w)

/-- The pack expansion inside `MessageBuffer::try_extract`: apply
`operator>>` once per requested width, left to right. -/
def MessageBuffer.extractSeq (e : Endian) (buf : List Nat) : List Nat → Option (List Nat × List Nat)
  | [] => some ([], buf)
  | w :: ws =>
    match MessageBuffer.extractInt e buf w with
    | none => none
    | some (v, rest) =>
      match MessageBuffer.extractSeq e rest ws with
      | none => none
      | some (vs, rest2) => some (v :: vs, rest2)

/-- `MessageBuffer::try_extract<Ts...>`: if the buffer holds fewer bytes
than the summed width of the requested types, return absent and leave the
buffer untouched; otherwise extract each value in order. -/
def MessageBuffer.try_extract (e : Endian) (buf : List Nat) (ws : List Nat) :
    Option (List Nat × List Nat) :=
  if buf.length < ws.sum then none
  else MessageBuffer.extractSeq e buf ws

/-! ### AddressInfo (address_info.hpp) -/

/-- `AddressFamily` from `address_family.hpp`. -/
inductive AddressFamily
  | Unspecified
  | Ipv4
  | Ipv6
deriving DecidableEq

/-- `AddressInfo`: family, textual address, port. -/
structure AddressInfo where
  family : AddressFamily
  address : String
  port : Nat

/-- The stream-insertion operator for `AddressInfo`, as a string: the code
prints the `<unspecified address family>` marker for `Unspecified`,
`addr:port` for `Ipv4` and `[addr]:port` for `Ipv6`. -/
def addressInfoToString (info : AddressInfo) : String :=
  match info.family with
  | .Unspecified => "<unspecified address family>"
  | .Ipv4 => info.address ++ ":" ++ toString info.port
  | .Ipv6 => "[" ++ info.address ++ "]:" ++ toString info.port

/-! ### Rendezvous channel (channel.hpp)

The shared `ChannelState` holds the open flag and the at-most-one in-flight
value.  An endpoint is moved-from when its `m_state` shared pointer is null;
the boolean `hasState` argument of each operation models that check.  The
condition-variable wait of the blocking operations is modelled sequentially:
when the wait predicate is false and no other thread can change it within
the model, the operation reports `blocked`. -/

/-- `detail::ChannelState<T>`: the open flag and the slot. -/
structure ChannelState (α : Type) where
  is_open : Bool
  value : Option α
deriving DecidableEq

/-- Result of `Sender::send`. -/
inductive SendOutcome (α : Type)
  | thrown (msg : String)
  | blocked
  | ok (newState : ChannelState α)
deriving DecidableEq

/-- Result of `Sender::try_send`: the returned boolean and the state left
behind. -/
inductive TrySendOutcome (α : Type)
  | thrown (msg : String)
  | result (accepted : Bool) (newState : ChannelState α)
deriving DecidableEq

/-- Result of `Receiver::receive`. -/
inductive ReceiveOutcome (α : Type)
  | thrown (msg : String)
  | blocked
  | ok (received : α) (newState : ChannelState α)
deriving DecidableEq

/-- Result of `Receiver::try_receive`: the returned optional and the state
left behind. -/
inductive TryReceiveOutcome (α : Type)
  | thrown (msg : String)
  | result (received : Option α) (newState : ChannelState α)
deriving DecidableEq

/-- `Sender::send`: throws on a moved-from endpoint; waits until the channel
is closed or the slot is empty; throws if closed; otherwise deposits the
value. -/
def Sender.send {α : Type} (hasState : Bool) (st : ChannelState α) (v : α) : SendOutcome α :=
  if hasState = false then .thrown "cannot call send() on a moved-from channel"
  else if st.is_open ∧ st.value.isSome then .blocked
  else if st.is_open = false then .thrown "channel has already closed"
  else .ok { st with value := some v }

/-- `Sender::try_send`: throws on a moved-from endpoint; returns false when
the channel is closed or the slot is occupied; otherwise deposits the value
and returns true. -/
def Sender.try_send {α : Type} (hasState : Bool) (st : ChannelState α) (v : α) :
    TrySendOutcome α :=
  if hasState = false then .thrown "cannot call try_send() on a moved-from channel"
  else if st.is_open = false ∨ st.value.isSome then .result false st
  else .result true { st with value := some v }

/-- `Receiver::receive`: throws on a moved-from endpoint; waits until the
slot is occupied or the channel is closed; takes the value if present (even
after close); throws if closed and empty. -/
def Receiver.receive {α : Type} (hasState : Bool) (st : ChannelState α) : ReceiveOutcome α :=
  if hasState = false then .thrown "cannot call receive() on a moved-from channel"
  else
    match st.value with
    | some v => .ok v { st with value := none }
    | none =>
      if st.is_open then .blocked
      else .thrown "channel has already closed"

/-- `Receiver::try_receive`: throws on a moved-from endpoint; returns absent
when the channel is closed or the slot is empty; otherwise takes the value. -/
def Receiver.try_receive {α : Type} (hasState : Bool) (st : ChannelState α) :
    TryReceiveOutcome α :=
  if hasState = false then .thrown "cannot call try_receive() on a moved-from channel"
  else
    match st.value with
    | none => .result none st
    | some v =>
      if st.is_open then .result (some v) { st with value := none }
      else .result none st

/-- `detail::ChannelBase::is_open`: false on a moved-from endpoint,
otherwise the shared flag. -/
def ChannelBase.is_open {α : Type} (hasState : Bool) (st : ChannelState α) : Bool :=
  if hasState = false then false else st.is_open

/-! ### Connection engine (socket.hpp declarations, part_010 definitions)

Tasks are modelled without their `std::promise`: fulfilling a promise is an
output event (`Completion`), emitted exactly where the source calls
`set_value` / `set_exception`. -/

/-- `ClientSocket::SendTask` (the payload; the promise is implicit). -/
structure SendTask where
  data : List Nat
deriving DecidableEq

/-- `ClientSocket::ReceiveTask::Kind`. -/
inductive ReceiveKind
  | Exact
  | MaxBytes
deriving DecidableEq

/-- `ClientSocket::ReceiveTask` (promise implicit, deadline externalised
into the receive oracle). -/
structure ReceiveTask where
  max_num_bytes : Nat
  kind : ReceiveKind
deriving DecidableEq

/-- A promise fulfillment performed by the engine. -/
inductive Completion
  | sendValue (n : Nat)
  | recvValue (bytes : List Nat)
  | recvTimeout
  | recvReadFailed
deriving DecidableEq

/-- `ClientSocket::State`: the running flag and the two task queues (front
of the list = front of the deque). -/
structure ConnectionState where
  running : Bool
  send_tasks : List SendTask
  receive_tasks : List ReceiveTask
deriving DecidableEq

/-- The receive-queue drain loop inside `clear_queues`: pop each task and
fulfill its promise with `{}` (the empty byte vector), front to back. -/
def drainReceiveQueue : List ReceiveTask → List Completion
  | [] => []
  | _ :: rest => Completion.recvValue [] :: drainReceiveQueue rest

/-- The send-queue drain loop inside `clear_queues`: pop each task and
fulfill its promise with `0`, front to back. -/
def drainSendQueue : List SendTask → List Completion
  | [] => []
  | _ :: rest => Completion.sendValue 0 :: drainSendQueue rest

/-- `ClientSocket::State::clear_queues`: drain the receive queue, then the
send queue; returns the emptied state and the fulfillments in order. -/
def clear_queues (s : ConnectionState) : ConnectionState × List Completion :=
  ({ s with send_tasks := [], receive_tasks := [] },
    drainReceiveQueue s.receive_tasks ++ drainSendQueue s.send_tasks)

/-- `ClientSocket::State::stop_running`: clear the running flag (under both
queue locks in the source). -/
def stop_running (s : ConnectionState) : ConnectionState :=
  { s with running := false }

/-- `ClientSocket::close`: stop running, then drain both queues. -/
def ClientSocket.close (s : ConnectionState) : ConnectionState × List Completion :=
  clear_queues (stop_running s)

/-- `ClientSocket::keep_sending` at a point where the worker evaluates the
while-condition: when `is_running()` yields false the loop exits and the
worker drains the queues; an iteration with `running = true` dispatches to
`process_send_task` and is modelled separately (`none` here). -/
def keep_sending (s : ConnectionState) : Option (ConnectionState × List Completion) :=
  if s.running then none
  else some (clear_queues s)

/-- `ClientSocket::keep_receiving`, same shape as `keep_sending`. -/
def keep_receiving (s : ConnectionState) : Option (ConnectionState × List Completion) :=
  if s.running then none
  else some (clear_queues s)

/-- `ClientSocket::send(std::vector<std::byte>)`: throws `SendError` on an
empty payload; if the engine is no longer running, fulfills the promise with
`0` immediately and enqueues nothing; otherwise enqueues a `SendTask`.
The first component of the payload is the future: `some n` means it is
already fulfilled with `n`, `none` means it is pending. -/
def ClientSocket.send (s : ConnectionState) (data : List Nat) :
    Except String (Option Nat × ConnectionState) :=
  if data.isEmpty then .error "cannot send 0 bytes of data"
  else if s.running = false then .ok (some 0, s)
  else .ok (none, { s with send_tasks := s.send_tasks ++ [⟨data⟩] })

/-- `ClientSocket::receive_implementation`: throws `ReadError` on a zero
byte count; if the engine is no longer running, fulfills the promise with
the empty byte vector immediately and enqueues nothing; otherwise enqueues a
`ReceiveTask`. -/
def ClientSocket.receive_implementation (s : ConnectionState) (max_num_bytes : Nat)
    (kind : ReceiveKind) : Except String (Option (List Nat) × ConnectionState) :=
  if max_num_bytes = 0 then .error "trying to receive 0 bytes makes no sense"
  else if s.running = false then .ok (some [], s)
  else .ok (none, { s with receive_tasks := s.receive_tasks ++ [⟨max_num_bytes, kind⟩] })

/-- `ClientSocket::receive(max_num_bytes, ...)`: an AtMost task. -/
def ClientSocket.receive (s : ConnectionState) (max_num_bytes : Nat) :
    Except String (Option (List Nat) × ConnectionState) :=
  ClientSocket.receive_implementation s max_num_bytes .MaxBytes

/-- `ClientSocket::receive_exact(num_bytes, ...)`: an Exact task. -/
def ClientSocket.receive_exact (s : ConnectionState) (num_bytes : Nat) :
    Except String (Option (List Nat) × ConnectionState) :=
  ClientSocket.receive_implementation s num_bytes .Exact

/-! ### Task processors driven by OS oracles (part_010) -/

/-- One result of the OS `::send` call: an error, or `n` bytes accepted. -/
inductive OsSendResult
  | error
  | sent (n : Nat)
deriving DecidableEq

/-- Result of running a task processor against an oracle. -/
inductive ProcResult (α : Type)
  | thrown (msg : String)
  | incomplete
  | done (value : α) (alive : Bool)
deriving DecidableEq

/-- The write loop of `process_send_task`: while fewer than `size` bytes
have been sent, call the OS `::send`; on a socket error fulfill the promise
with `0` and report the connection dead; otherwise advance the cursor.  When
the cursor reaches `size`, fulfill with the accumulated count.  `none` when
the oracle runs out mid-loop. -/
def sendLoop (size : Nat) : Nat → List OsSendResult → Option (Nat × Bool)
  | num_bytes_sent, [] =>
    if num_bytes_sent < size then none else some (num_bytes_sent, true)
  | num_bytes_sent, .error :: _ =>
    if num_bytes_sent < size then some (0, false) else some (num_bytes_sent, true)
  | num_bytes_sent, .sent n :: rest =>
    if num_bytes_sent < size then sendLoop size (num_bytes_sent + n) rest
    else some (num_bytes_sent, true)

/-- The number of payload bytes the OS actually accepted during the same
loop (the cursor value at the moment the loop stops). -/
def sendLoopWritten (size : Nat) : Nat → List OsSendResult → Nat
  | num_bytes_sent, [] => num_bytes_sent
  | num_bytes_sent, .error :: _ => num_bytes_sent
  | num_bytes_sent, .sent n :: rest =>
    if num_bytes_sent < size then sendLoopWritten size (num_bytes_sent + n) rest
    else num_bytes_sent

/-- `ClientSocket::process_send_task`: throws when the payload size exceeds
the OS send-size type (`limit`), otherwise runs the write loop. -/
def process_send_task (limit : Nat) (task : SendTask) (oracle : List OsSendResult) :
    ProcResult Nat :=
  if limit < task.data.length then .thrown "size of message to be sent exceeds allowed maximum"
  else
    match sendLoop task.data.length 0 oracle with
    | none => .incomplete
    | some (v, alive) => .done v alive

/-- A well-formed OS send oracle for `remaining` outstanding bytes: each
successful `::send` on a blocking socket transfers at least one and at most
the requested number of bytes. -/
def ValidSendOracle : Nat → List OsSendResult → Bool
  | _, [] => true
  | _, .error :: _ => true
  | remaining, .sent n :: rest =>
    decide (1 ≤ n) && decide (n ≤ remaining) && ValidSendOracle (remaining - n) rest

/-- What one iteration of the `process_receive_task` loop observed:
the deadline check fired, `select` reported not ready, `recv` reported a
closed or broken connection, or `recv` delivered bytes. -/
inductive RecvEvent
  | deadline
  | notReady
  | closed
  | data (bytes : List Nat)
deriving DecidableEq

/-- A fulfillment of a receive promise. -/
inductive RecvOutcome
  | value (bytes : List Nat)
  | timeout
  | readFailed
deriving DecidableEq

/-- The accumulation loop of `process_receive_task`.  Per iteration: if the
deadline has passed, an Exact task fails with `TimeoutError` and an AtMost
task is fulfilled with whatever accumulated (both leave the connection up);
if the socket is not ready, loop; if `recv` reports close or error, an Exact
task fails with `ReadError` and an AtMost task is fulfilled with the
accumulated bytes (both report the connection dead); on data, append it and
fulfill immediately for AtMost, or when the target is reached for Exact. -/
def recvLoop (kind : ReceiveKind) (max : Nat) : List Nat → List RecvEvent →
    Option (RecvOutcome × Bool)
  | _, [] => none
  | acc, .deadline :: _ =>
    if kind = .Exact then some (.timeout, true)
    else some (.value acc, true)
  | acc, .notReady :: rest => recvLoop kind max acc rest
  | acc, .closed :: _ =>
    if kind = .Exact then some (.readFailed, false)
    else some (.value acc, false)
  | acc, .data bs :: rest =>
    if kind = .MaxBytes ∨ max ≤ (acc ++ bs).length then some (.value (acc ++ bs), true)
    else recvLoop kind max (acc ++ bs) rest

/-- `ClientSocket::process_receive_task`: throws when the requested size
exceeds the OS recv-size type (`limit`), otherwise runs the accumulation
loop starting from an empty buffer. -/
def process_receive_task (limit : Nat) (task : ReceiveTask) (oracle : List RecvEvent) :
    ProcResult RecvOutcome :=
  if limit < task.max_num_bytes then
    .thrown "size of message to be received exceeds allowed maximum"
  else
    match recvLoop task.kind task.max_num_bytes [] oracle with
    | none => .incomplete
    | some (o, alive) => .done o alive

/-- A well-formed receive oracle for `remaining` outstanding bytes: after a
successful readiness poll, `recv` delivers at least one and at most the
requested number of bytes. -/
def ValidRecvOracle : Nat → List RecvEvent → Bool
  | _, [] => true
  | _, .deadline :: _ => true
  | _, .closed :: _ => true
  | remaining, .notReady :: rest => ValidRecvOracle remaining rest
  | remaining, .data bs :: rest =>
    decide (1 ≤ bs.length) && decide (bs.length ≤ remaining)
      && ValidRecvOracle (remaining - bs.length) rest

/-! ## Theorems -/

/-! ### Byte codec lemmas -/

theorem toBytesLE_length (w v : Nat) : (toBytesLE w v).length = w := by
  induction w generalizing v with
  | zero => rfl
  | succ w ih => simp [toBytesLE, ih]

theorem toBytesLE_lt (w v : Nat) : ∀ b ∈ toBytesLE w v, b < 256 := by
  induction w generalizing v with
  | zero => simp [toBytesLE]
  | succ w ih =>
    intro b hb
    simp only [toBytesLE, List.mem_cons] at hb
    rcases hb with h | h
    · subst h; exact Nat.mod_lt _ (by norm_num)
    · exact ih _ b h

theorem fromBytesLE_toBytesLE (w v : Nat) :
    fromBytesLE (toBytesLE w v) = v % 2 ^ (8 * w) := by
  induction w generalizing v with
  | zero => simp [toBytesLE, fromBytesLE, Nat.mod_one]
  | succ w ih =>
    simp only [toBytesLE, fromBytesLE, ih]
    have h256 : (2 : Nat) ^ (8 * (w + 1)) = 256 * 2 ^ (8 * w) := by
      rw [Nat.mul_add, Nat.pow_add]; ring
    rw [h256, Nat.mod_mul]

theorem toBytesLE_fromBytesLE (l : List Nat) (hlt : ∀ b ∈ l, b < 256) :
    toBytesLE l.length (fromBytesLE l) = l := by
  induction l with
  | nil => rfl
  | cons b rest ih =>
    have hb : b < 256 := hlt b (List.mem_cons_self b rest)
    have hrest : ∀ x ∈ rest, x < 256 := fun x hx => hlt x (List.mem_cons_of_mem b hx)
    simp only [List.length_cons, toBytesLE, fromBytesLE, List.cons.injEq]
    refine ⟨by omega, ?_⟩
    have hdiv : (b + 256 * fromBytesLE rest) / 256 = fromBytesLE rest := by omega
    rw [hdiv]
    exact ih hrest

theorem toBytesLE_byteswap (w v : Nat) :
    toBytesLE w (byteswap w v) = (toBytesLE w v).reverse := by
  have hlen : (toBytesLE w v).reverse.length = w := by
    rw [List.length_reverse, toBytesLE_length]
  have hlt : ∀ b ∈ (toBytesLE w v).reverse, b < 256 := by
    intro b hb
    exact toBytesLE_lt w v b (List.mem_reverse.mp hb)
  calc toBytesLE w (byteswap w v)
      = toBytesLE (toBytesLE w v).reverse.length (fromBytesLE (toBytesLE w v).reverse) := by
        rw [hlen]; rfl
    _ = (toBytesLE w v).reverse := toBytesLE_fromBytesLE _ hlt

theorem byteswap_byteswap (w v : Nat) (h : v < 2 ^ (8 * w)) :
    byteswap w (byteswap w v) = v := by
  show fromBytesLE (toBytesLE w (byteswap w v)).reverse = v
  rw [toBytesLE_byteswap, List.reverse_reverse, fromBytesLE_toBytesLE]
  exact Nat.mod_eq_of_lt h

theorem to_network_byte_order_involution (e : Endian) (w v : Nat) (h : v < 2 ^ (8 * w)) :
    to_network_byte_order e w (to_network_byte_order e w v) = v := by
  cases e with
  | big => rfl
  | little => exact byteswap_byteswap w v h

/-- C8: for every fixed-width integer `x` (width `w` bytes, on either host
endianness), `from_network_byte_order (to_network_byte_order x) = x`; each
of the two conversion functions is an involution and each is the inverse of
the other. -/
theorem claim_C8_byte_order_involution (e : Endian) (w v : Nat) (h : v < 2 ^ (8 * w)) :
    from_network_byte_order e w (to_network_byte_order e w v) = v ∧
    to_network_byte_order e w (from_network_byte_order e w v) = v ∧
    to_network_byte_order e w (to_network_byte_order e w v) = v ∧
    from_network_byte_order e w (from_network_byte_order e w v) = v := by
  have hinv := to_network_byte_order_involution e w v h
  exact ⟨hinv, hinv, hinv, hinv⟩

/-- Witness for C8 at host endianness little, width 2, value 4660. -/
theorem claim_C8_byte_order_involution_witness :
    4660 < 2 ^ (8 * 2) ∧
    (from_network_byte_order .little 2 (to_network_byte_order .little 2 4660) = 4660 ∧
      to_network_byte_order .little 2 (from_network_byte_order .little 2 4660) = 4660 ∧
      to_network_byte_order .little 2 (to_network_byte_order .little 2 4660) = 4660 ∧
      from_network_byte_order .little 2 (from_network_byte_order .little 2 4660) = 4660) :=
  ⟨by decide, claim_C8_byte_order_involution .little 2 4660 (by decide)⟩

/-! ### MessageBuffer lemmas -/

theorem toBytesBE_length (w v : Nat) : (toBytesBE w v).length = w := by
  rw [toBytesBE, List.length_reverse, toBytesLE_length]

theorem appendInt_eq (e : Endian) (buf : List Nat) (w v : Nat) :
    MessageBuffer.appendInt e buf w v = buf ++ toBytesBE w v := by
  cases e with
  | big => rfl
  | little =>
    show buf ++ toBytesLE w (byteswap w v) = buf ++ toBytesBE w v
    rw [toBytesLE_byteswap]
    rfl

theorem fromBytesBE_toBytesBE (w v : Nat) :
    fromBytesBE (toBytesBE w v) = v % 2 ^ (8 * w) := by
  rw [toBytesBE, fromBytesBE, List.reverse_reverse, fromBytesLE_toBytesLE]

theorem extractInt_toBytesBE (e : Endian) (w v : Nat) (rest : List Nat)
    (h : v < 2 ^ (8 * w)) :
    MessageBuffer.extractInt e (toBytesBE w v ++ rest) w = some (v, rest) := by
  have hlen : (toBytesBE w v).length = w := toBytesBE_length w v
  have hcond : ¬(toBytesBE w v ++ rest).length < w := by
    rw [List.length_append, hlen]; omega
  have htake : (toBytesBE w v ++ rest).take w = toBytesBE w v := List.take_left' hlen
  have hdrop : (toBytesBE w v ++ rest).drop w = rest := List.drop_left' hlen
  rw [MessageBuffer.extractInt, if_neg hcond, htake, hdrop]
  cases e with
  | big =>
    have : fromBytesBE (toBytesBE w v) = v := by
      rw [fromBytesBE_toBytesBE]; exact Nat.mod_eq_of_lt h
    simp [from_network_byte_order, to_network_byte_order, nativeFromBytes, this]
  | little =>
    have hswap : fromBytesLE (toBytesBE w v) = byteswap w v := rfl
    simp only [from_network_byte_order, to_network_byte_order, nativeFromBytes, hswap,
      byteswap_byteswap w v h]

theorem appendAll_eq (e : Endian) (buf : List Nat) (xs : List (Nat × Nat)) :
    MessageBuffer.appendAll e buf xs = buf ++ MessageBuffer.appendAll e [] xs := by
  induction xs generalizing buf with
  | nil => simp [MessageBuffer.appendAll]
  | cons p xs ih =>
    obtain ⟨w, v⟩ := p
    show MessageBuffer.appendAll e (MessageBuffer.appendInt e buf w v) xs
      = buf ++ MessageBuffer.appendAll e (MessageBuffer.appendInt e [] w v) xs
    rw [ih (MessageBuffer.appendInt e buf w v), ih (MessageBuffer.appendInt e [] w v),
      appendInt_eq, appendInt_eq, List.nil_append, List.append_assoc]

theorem appendAll_cons (e : Endian) (w v : Nat) (xs : List (Nat × Nat)) :
    MessageBuffer.appendAll e [] ((w, v) :: xs)
      = toBytesBE w v ++ MessageBuffer.appendAll e [] xs := by
  show MessageBuffer.appendAll e (MessageBuffer.appendInt e [] w v) xs
    = toBytesBE w v ++ MessageBuffer.appendAll e [] xs
  rw [appendAll_eq, appendInt_eq, List.nil_append]

theorem appendAll_length (e : Endian) (xs : List (Nat × Nat)) :
    (MessageBuffer.appendAll e [] xs).length = (xs.map Prod.fst).sum := by
  induction xs with
  | nil => rfl
  | cons p xs ih =>
    obtain ⟨w, v⟩ := p
    rw [appendAll_cons, List.length_append, toBytesBE_length, ih]
    simp

theorem extractSeq_appendAll (e : Endian) (xs : List (Nat × Nat)) (rest : List Nat)
    (h : ∀ p ∈ xs, p.2 < 2 ^ (8 * p.1)) :
    MessageBuffer.extractSeq e (MessageBuffer.appendAll e [] xs ++ rest) (xs.map Prod.fst)
      = some (xs.map Prod.snd, rest) := by
  induction xs generalizing rest with
  | nil => simp [MessageBuffer.appendAll, MessageBuffer.extractSeq]
  | cons p xs ih =>
    obtain ⟨w, v⟩ := p
    have hv : v < 2 ^ (8 * w) := h (w, v) (List.mem_cons_self _ _)
    have hxs : ∀ p ∈ xs, p.2 < 2 ^ (8 * p.1) := fun p hp => h p (List.mem_cons_of_mem _ hp)
    rw [appendAll_cons, List.append_assoc]
    show MessageBuffer.extractSeq e
        (toBytesBE w v ++ (MessageBuffer.appendAll e [] xs ++ rest)) (w :: xs.map Prod.fst)
      = some (v :: xs.map Prod.snd, rest)
    rw [MessageBuffer.extractSeq]
    simp only [extractInt_toBytesBE e w v _ hv, ih rest hxs]

/-- C7: appending any sequence of fixed-width integers to a fresh
MessageBuffer with the integer-append operator and then extracting with
try_extract at the same widths, in the same order, yields exactly the
sequence back and leaves the buffer empty. -/
theorem claim_C7_message_buffer_roundtrip (e : Endian) (xs : List (Nat × Nat))
    (h : ∀ p ∈ xs, p.2 < 2 ^ (8 * p.1)) :
    MessageBuffer.try_extract e (MessageBuffer.appendAll e [] xs) (xs.map Prod.fst)
      = some (xs.map Prod.snd, []) := by
  have hlen : (MessageBuffer.appendAll e [] xs).length = (xs.map Prod.fst).sum :=
    appendAll_length e xs
  rw [MessageBuffer.try_extract, if_neg (by omega)]
  have := extractSeq_appendAll e xs [] h
  rwa [List.append_nil] at this

/-- Witness for C7: a 16-bit 258 followed by an 8-bit 7, on a big-endian
host. -/
theorem claim_C7_message_buffer_roundtrip_witness :
    (∀ p ∈ [((2 : Nat), (258 : Nat)), (1, 7)], p.2 < 2 ^ (8 * p.1)) ∧
    MessageBuffer.try_extract .big (MessageBuffer.appendAll .big [] [(2, 258), (1, 7)])
        ([((2 : Nat), (258 : Nat)), (1, 7)].map Prod.fst)
      = some ([((2 : Nat), (258 : Nat)), (1, 7)].map Prod.snd, []) :=
  ⟨by decide, claim_C7_message_buffer_roundtrip .big [(2, 258), (1, 7)] (by decide)⟩

/-! ### AddressInfo stringification (C9) -/

/-- C9 counterexample: for an `Unspecified` descriptor the code prints the
string `<unspecified address family>`, not the string `<unspecified>`
stated by the claim. -/
theorem claim_C9_counterexample :
    addressInfoToString ⟨.Unspecified, "0.0.0.0", 0⟩ = "<unspecified address family>" ∧
    addressInfoToString ⟨.Unspecified, "0.0.0.0", 0⟩ ≠ "<unspecified>" :=
  ⟨rfl, by decide⟩

/-- C9 (amended): the canonical string form is `addr:port` for Ipv4,
`[addr]:port` for Ipv6, and the string `<unspecified address family>`
otherwise. -/
theorem claim_C9_address_stringification (info : AddressInfo) :
    (info.family = .Ipv4 →
      addressInfoToString info = info.address ++ ":" ++ toString info.port) ∧
    (info.family = .Ipv6 →
      addressInfoToString info = "[" ++ info.address ++ "]:" ++ toString info.port) ∧
    (info.family = .Unspecified →
      addressInfoToString info = "<unspecified address family>") := by
  refine ⟨?_, ?_, ?_⟩ <;> intro h <;> simp [addressInfoToString, h]

/-- Witness for C9 on an Ipv4 descriptor. -/
theorem claim_C9_address_stringification_witness :
    addressInfoToString ⟨.Ipv4, "1.2.3.4", 80⟩ = "1.2.3.4" ++ ":" ++ toString 80 :=
  (claim_C9_address_stringification ⟨.Ipv4, "1.2.3.4", 80⟩).1 rfl

/-! ### Rendezvous channel (C6, C10) -/

/-- C6 counterexample: a closed channel whose slot still holds a value.
`try_receive` returns absent although the slot holds one. -/
theorem claim_C6_counterexample :
    Receiver.try_receive true (⟨false, some 42⟩ : ChannelState Nat)
        = .result none ⟨false, some 42⟩ ∧
    (ChannelState.value (⟨false, some 42⟩ : ChannelState Nat)).isSome = true :=
  ⟨rfl, rfl⟩

/-- C6 (amended): on a valid endpoint, `try_receive` returns the present
value exactly when the channel is still open and the slot holds one
(emptying the slot); it returns absent when the slot is empty or the
channel has been closed; it never fails. -/
theorem claim_C6_try_receive (α : Type) (st : ChannelState α) :
    (∀ v : α, st.is_open = true → st.value = some v →
      Receiver.try_receive true st = .result (some v) { st with value := none }) ∧
    (st.value = none → Receiver.try_receive true st = .result none st) ∧
    (st.is_open = false → Receiver.try_receive true st = .result none st) ∧
    (∀ msg, Receiver.try_receive true st ≠ .thrown msg) := by
  obtain ⟨o, val⟩ := st
  cases o <;> cases val <;> simp [Receiver.try_receive]

/-- Witness for C6: an open channel holding 5 delivers 5 and empties the
slot. -/
theorem claim_C6_try_receive_witness :
    Receiver.try_receive true (⟨true, some 5⟩ : ChannelState Nat)
      = .result (some 5) ⟨true, none⟩ :=
  (claim_C6_try_receive Nat ⟨true, some 5⟩).1 5 rfl rfl

/-- C10: every channel operation on a moved-from endpoint (null shared
state) raises ChannelError without touching the shared channel state, and
`is_open` on a moved-from endpoint returns false. -/
theorem claim_C10_moved_from_endpoint (α : Type) (st : ChannelState α) (v : α) :
    Sender.send false st v = .thrown "cannot call send() on a moved-from channel" ∧
    Sender.try_send false st v = .thrown "cannot call try_send() on a moved-from channel" ∧
    Receiver.receive false st = .thrown "cannot call receive() on a moved-from channel" ∧
    Receiver.try_receive false st
        = .thrown "cannot call try_receive() on a moved-from channel" ∧
    ChannelBase.is_open false st = false :=
  ⟨rfl, rfl, rfl, rfl, rfl⟩

/-! ### Shutdown drain and post-shutdown fast path (C1, C2) -/

theorem drainReceiveQueue_eq (l : List ReceiveTask) :
    drainReceiveQueue l = l.map (fun _ => Completion.recvValue []) := by
  induction l with
  | nil => rfl
  | cons t rest ih => simp [drainReceiveQueue, ih]

theorem drainSendQueue_eq (l : List SendTask) :
    drainSendQueue l = l.map (fun _ => Completion.sendValue 0) := by
  induction l with
  | nil => rfl
  | cons t rest ih => simp [drainSendQueue, ih]

/-- C1 counterexample: a pending Exact receive task is drained with the
empty byte sequence, not with a ReadFailed failure. -/
theorem claim_C1_counterexample :
    keep_receiving ⟨false, [], [⟨1, .Exact⟩]⟩
        = some (⟨false, [], []⟩, [Completion.recvValue []]) ∧
    Completion.recvValue [] ≠ Completion.recvReadFailed :=
  ⟨rfl, by decide⟩

/-- C1 (amended): a worker that observes `running = false` exits its loop
and drains the queues; every task still pending is fulfilled exactly once —
with 0 for every pending send task and with the empty byte sequence for
every pending receive task, AtMost and Exact alike. -/
theorem claim_C1_shutdown_drain (s : ConnectionState) (h : s.running = false) :
    keep_sending s = some (clear_queues s) ∧
    keep_receiving s = some (clear_queues s) ∧
    (clear_queues s).1.send_tasks = [] ∧
    (clear_queues s).1.receive_tasks = [] ∧
    (clear_queues s).2
        = s.receive_tasks.map (fun _ => Completion.recvValue [])
          ++ s.send_tasks.map (fun _ => Completion.sendValue 0) ∧
    (clear_queues s).2.length = s.receive_tasks.length + s.send_tasks.length := by
  refine ⟨by simp [keep_sending, h], by simp [keep_receiving, h], rfl, rfl, ?_, ?_⟩
  · simp [clear_queues, drainReceiveQueue_eq, drainSendQueue_eq]
  · simp [clear_queues, drainReceiveQueue_eq, drainSendQueue_eq]

/-- Witness for C1: one pending send task and one pending AtMost receive
task at shutdown. -/
theorem claim_C1_shutdown_drain_witness :
    (⟨false, [⟨[1]⟩], [⟨2, .MaxBytes⟩]⟩ : ConnectionState).running = false ∧
    (keep_sending ⟨false, [⟨[1]⟩], [⟨2, .MaxBytes⟩]⟩
        = some (clear_queues ⟨false, [⟨[1]⟩], [⟨2, .MaxBytes⟩]⟩) ∧
      keep_receiving ⟨false, [⟨[1]⟩], [⟨2, .MaxBytes⟩]⟩
        = some (clear_queues ⟨false, [⟨[1]⟩], [⟨2, .MaxBytes⟩]⟩) ∧
      (clear_queues (⟨false, [⟨[1]⟩], [⟨2, .MaxBytes⟩]⟩ : ConnectionState)).1.send_tasks = [] ∧
      (clear_queues (⟨false, [⟨[1]⟩], [⟨2, .MaxBytes⟩]⟩ : ConnectionState)).1.receive_tasks
        = [] ∧
      (clear_queues (⟨false, [⟨[1]⟩], [⟨2, .MaxBytes⟩]⟩ : ConnectionState)).2
        = ([⟨2, .MaxBytes⟩] : List ReceiveTask).map (fun _ => Completion.recvValue [])
          ++ ([⟨[1]⟩] : List SendTask).map (fun _ => Completion.sendValue 0) ∧
      (clear_queues (⟨false, [⟨[1]⟩], [⟨2, .MaxBytes⟩]⟩ : ConnectionState)).2.length
        = [(⟨2, .MaxBytes⟩ : ReceiveTask)].length + [(⟨[1]⟩ : SendTask)].length) :=
  ⟨rfl, claim_C1_shutdown_drain ⟨false, [⟨[1]⟩], [⟨2, .MaxBytes⟩]⟩ rfl⟩

/-- C2: once shutdown has happened (`running = false`), every subsequent
`send` with a non-empty payload and every `receive` / `receive_exact` with a
positive byte count returns an already-fulfilled future carrying the
empty-result sentinel (0 respectively empty bytes) and enqueues nothing
(the state is unchanged); moreover `close` always leaves `running = false`. -/
theorem claim_C2_post_shutdown_calls (s : ConnectionState) (data : List Nat) (m n : Nat)
    (h : s.running = false) (hdata : data ≠ []) (hm : 0 < m) (hn : 0 < n) :
    ClientSocket.send s data = .ok (some 0, s) ∧
    ClientSocket.receive s m = .ok (some [], s) ∧
    ClientSocket.receive_exact s n = .ok (some [], s) ∧
    (ClientSocket.close s).1.running = false := by
  have hm0 : m ≠ 0 := by omega
  have hn0 : n ≠ 0 := by omega
  refine ⟨?_, ?_, ?_, rfl⟩
  · simp [ClientSocket.send, h, hdata]
  · simp [ClientSocket.receive, ClientSocket.receive_implementation, h, hm0]
  · simp [ClientSocket.receive_exact, ClientSocket.receive_implementation, h, hn0]

/-- Witness for C2 on a closed connection with empty queues. -/
theorem claim_C2_post_shutdown_calls_witness :
    ((⟨false, [], []⟩ : ConnectionState).running = false ∧ ([7] : List Nat) ≠ [] ∧
      (0 : Nat) < 1 ∧ (0 : Nat) < 2) ∧
    (ClientSocket.send ⟨false, [], []⟩ [7] = .ok (some 0, ⟨false, [], []⟩) ∧
      ClientSocket.receive ⟨false, [], []⟩ 1 = .ok (some [], ⟨false, [], []⟩) ∧
      ClientSocket.receive_exact ⟨false, [], []⟩ 2 = .ok (some [], ⟨false, [], []⟩) ∧
      (ClientSocket.close (⟨false, [], []⟩ : ConnectionState)).1.running = false) :=
  ⟨⟨rfl, by decide, by decide, by decide⟩,
    claim_C2_post_shutdown_calls ⟨false, [], []⟩ [7] 1 2 rfl (by decide) (by decide)
      (by decide)⟩

/-! ### Send task processing (C3) -/

theorem sendLoop_spec (size : Nat) (oracle : List OsSendResult) :
    ∀ (num : Nat), ValidSendOracle (size - num) oracle = true → num ≤ size →
      ∀ v alive, sendLoop size num oracle = some (v, alive) →
        (alive = true ∧ v = size) ∨ (alive = false ∧ v = 0) := by
  induction oracle with
  | nil =>
    intro num hvalid hle v alive hrun
    simp only [sendLoop] at hrun
    split at hrun
    · exact absurd hrun (by simp)
    · rename_i hge
      simp only [Option.some.injEq, Prod.mk.injEq] at hrun
      obtain ⟨h1, h2⟩ := hrun
      left
      exact ⟨h2.symm, by omega⟩
  | cons step rest ih =>
    intro num hvalid hle v alive hrun
    cases step with
    | error =>
      simp only [sendLoop] at hrun
      split at hrun
      · simp only [Option.some.injEq, Prod.mk.injEq] at hrun
        right
        exact ⟨hrun.2.symm, hrun.1.symm⟩
      · rename_i hge
        simp only [Option.some.injEq, Prod.mk.injEq] at hrun
        obtain ⟨h1, h2⟩ := hrun
        left
        exact ⟨h2.symm, by omega⟩
    | sent n =>
      simp only [sendLoop] at hrun
      split at hrun
      · rename_i hlt
        simp only [ValidSendOracle, Bool.and_eq_true, decide_eq_true_eq] at hvalid
        obtain ⟨⟨h1, h2⟩, h3⟩ := hvalid
        have hsub : size - num - n = size - (num + n) := by omega
        rw [hsub] at h3
        exact ih (num + n) h3 (by omega) v alive hrun
      · rename_i hge
        simp only [Option.some.injEq, Prod.mk.injEq] at hrun
        obtain ⟨h1, h2⟩ := hrun
        left
        exact ⟨h2.symm, by omega⟩

/-- C3 counterexample: a two-byte payload, the OS accepts one byte and then
reports an error.  The completion value is 0 although one byte of the
payload actually went out. -/
theorem claim_C3_counterexample :
    process_send_task 100 ⟨[7, 7]⟩ [.sent 1, .error] = .done 0 false ∧
    sendLoopWritten 2 0 [.sent 1, .error] = 1 ∧ (1 : Nat) ≠ 0 :=
  ⟨by decide, by decide, by decide⟩

/-- C3 (amended): every submitted send task is fulfilled exactly once; on
success the value is the full payload length (all bytes were written, worker
reports the connection alive); if any OS send call fails, the value is 0 and
the worker reports the connection dead — regardless of how many bytes of the
payload had already been written. -/
theorem claim_C3_send_completion (limit : Nat) (task : SendTask)
    (oracle : List OsSendResult) (hlim : task.data.length ≤ limit)
    (hvalid : ValidSendOracle task.data.length oracle = true) :
    ∀ v alive, process_send_task limit task oracle = .done v alive →
      (alive = true ∧ v = task.data.length) ∨ (alive = false ∧ v = 0) := by
  intro v alive h
  rw [process_send_task, if_neg (by omega)] at h
  cases hrun : sendLoop task.data.length 0 oracle with
  | none => rw [hrun] at h; exact absurd h (by simp)
  | some p =>
    obtain ⟨v0, a0⟩ := p
    rw [hrun] at h
    simp only [ProcResult.done.injEq] at h
    obtain ⟨rfl, rfl⟩ := h
    have hvalid0 : ValidSendOracle (task.data.length - 0) oracle = true := by
      simpa using hvalid
    exact sendLoop_spec task.data.length oracle 0 hvalid0 (Nat.zero_le _) _ _ hrun

/-- Witness for C3: a two-byte payload sent in two one-byte chunks. -/
theorem claim_C3_send_completion_witness :
    ((⟨[7, 7]⟩ : SendTask).data.length ≤ 100 ∧
      ValidSendOracle (⟨[7, 7]⟩ : SendTask).data.length [.sent 1, .sent 1] = true) ∧
    ((true = true ∧ 2 = (⟨[7, 7]⟩ : SendTask).data.length) ∨ (true = false ∧ 2 = 0)) :=
  ⟨⟨by decide, by decide⟩,
    claim_C3_send_completion 100 ⟨[7, 7]⟩ [.sent 1, .sent 1] (by decide) (by decide) 2 true
      (by decide)⟩

/-! ### Receive task processing (C4, C5) -/

theorem recvLoop_exact_spec (max : Nat) (oracle : List RecvEvent) :
    ∀ (acc : List Nat), ValidRecvOracle (max - acc.length) oracle = true →
      acc.length < max →
      ∀ o alive, recvLoop .Exact max acc oracle = some (o, alive) →
        ((∃ l, o = .value l ∧ l.length = max) ∧ alive = true) ∨
        (o = .timeout ∧ alive = true) ∨ (o = .readFailed ∧ alive = false) := by
  induction oracle with
  | nil =>
    intro acc hvalid hlt o alive hrun
    exact absurd hrun (by simp [recvLoop])
  | cons ev rest ih =>
    intro acc hvalid hlt o alive hrun
    cases ev with
    | deadline =>
      simp only [recvLoop] at hrun
      split at hrun
      · simp only [Option.some.injEq, Prod.mk.injEq] at hrun
        right; left
        exact ⟨hrun.1.symm, hrun.2.symm⟩
      · rename_i hk; exact absurd trivial hk
    | notReady =>
      simp only [recvLoop] at hrun
      exact ih acc (by simpa [ValidRecvOracle] using hvalid) hlt o alive hrun
    | closed =>
      simp only [recvLoop] at hrun
      split at hrun
      · simp only [Option.some.injEq, Prod.mk.injEq] at hrun
        right; right
        exact ⟨hrun.1.symm, hrun.2.symm⟩
      · rename_i hk; exact absurd trivial hk
    | data bs =>
      simp only [ValidRecvOracle, Bool.and_eq_true, decide_eq_true_eq] at hvalid
      obtain ⟨⟨h1, h2⟩, h3⟩ := hvalid
      simp only [recvLoop] at hrun
      split at hrun
      · rename_i hcond
        simp only [Option.some.injEq, Prod.mk.injEq] at hrun
        left
        refine ⟨⟨acc ++ bs, hrun.1.symm, ?_⟩, hrun.2.symm⟩
        rcases hcond with hk | hlen
        · exact absurd hk (by simp)
        · rw [List.length_append] at hlen ⊢
          omega
      · rename_i hcond
        have hlen : ¬max ≤ (acc ++ bs).length := by
          intro hc
          exact hcond (Or.inr hc)
        rw [List.length_append] at hlen
        have hsub : max - acc.length - bs.length = max - (acc ++ bs).length := by
          rw [List.length_append]; omega
        rw [hsub] at h3
        exact ih (acc ++ bs) h3 (by rw [List.length_append]; omega) o alive hrun

theorem recvLoop_max_spec (max : Nat) (oracle : List RecvEvent) :
    ∀ (acc : List Nat), ValidRecvOracle (max - acc.length) oracle = true →
      acc.length ≤ max →
      ∀ o alive, recvLoop .MaxBytes max acc oracle = some (o, alive) →
        ∃ l, o = .value l ∧ l.length ≤ max := by
  induction oracle with
  | nil =>
    intro acc hvalid hle o alive hrun
    exact absurd hrun (by simp [recvLoop])
  | cons ev rest ih =>
    intro acc hvalid hle o alive hrun
    cases ev with
    | deadline =>
      simp only [recvLoop] at hrun
      split at hrun
      · rename_i hk; exact absurd hk (by simp)
      · simp only [Option.some.injEq, Prod.mk.injEq] at hrun
        exact ⟨acc, hrun.1.symm, hle⟩
    | notReady =>
      simp only [recvLoop] at hrun
      exact ih acc (by simpa [ValidRecvOracle] using hvalid) hle o alive hrun
    | closed =>
      simp only [recvLoop] at hrun
      split at hrun
      · rename_i hk; exact absurd hk (by simp)
      · simp only [Option.some.injEq, Prod.mk.injEq] at hrun
        exact ⟨acc, hrun.1.symm, hle⟩
    | data bs =>
      simp only [ValidRecvOracle, Bool.and_eq_true, decide_eq_true_eq] at hvalid
      obtain ⟨⟨h1, h2⟩, h3⟩ := hvalid
      simp only [recvLoop] at hrun
      split at hrun
      · simp only [Option.some.injEq, Prod.mk.injEq] at hrun
        refine ⟨acc ++ bs, hrun.1.symm, ?_⟩
        rw [List.length_append]
        omega
      · rename_i hcond
        exact absurd (Or.inl trivial) hcond

/-- C4: for an Exact receive task with `n > 0` bytes requested (and `n`
within the OS size limit), the promise is fulfilled with exactly `n` bytes
on success (worker reports the connection alive); with a TimeoutError when
the deadline elapses first (worker still reports the connection alive, i.e.
the connection stays up); and with a ReadFailed error when the connection
dies mid-read (worker reports the connection dead). -/
theorem claim_C4_receive_exact_task (limit n : Nat) (oracle : List RecvEvent)
    (hn : 0 < n) (hlim : n ≤ limit) (hvalid : ValidRecvOracle n oracle = true) :
    (∀ o alive, process_receive_task limit ⟨n, .Exact⟩ oracle = .done o alive →
      ((∃ l, o = .value l ∧ l.length = n) ∧ alive = true) ∨
      (o = .timeout ∧ alive = true) ∨ (o = .readFailed ∧ alive = false)) ∧
    (∀ rest, process_receive_task limit ⟨n, .Exact⟩ (.deadline :: rest)
        = .done .timeout true) ∧
    (∀ rest, process_receive_task limit ⟨n, .Exact⟩ (.closed :: rest)
        = .done .readFailed false) := by
  have hnotlt : ¬limit < n := by omega
  refine ⟨?_, ?_, ?_⟩
  · intro o alive h
    rw [process_receive_task, if_neg hnotlt] at h
    cases hrun : recvLoop .Exact n [] oracle with
    | none => rw [hrun] at h; exact absurd h (by simp)
    | some p =>
      obtain ⟨o0, a0⟩ := p
      rw [hrun] at h
      simp only [ProcResult.done.injEq] at h
      obtain ⟨rfl, rfl⟩ := h
      exact recvLoop_exact_spec n oracle [] (by simpa using hvalid) (by simpa using hn)
        _ _ hrun
  · intro rest
    rw [process_receive_task, if_neg hnotlt]
    rfl
  · intro rest
    rw [process_receive_task, if_neg hnotlt]
    rfl

/-- Witness for C4: one byte requested, one byte delivered. -/
theorem claim_C4_receive_exact_task_witness :
    ((0 : Nat) < 1 ∧ 1 ≤ 10 ∧ ValidRecvOracle 1 [.data [9]] = true) ∧
    (((∃ l, RecvOutcome.value [9] = .value l ∧ l.length = 1) ∧ true = true) ∨
      (RecvOutcome.value [9] = .timeout ∧ true = true) ∨
      (RecvOutcome.value [9] = .readFailed ∧ true = false)) :=
  ⟨⟨by decide, by decide, by decide⟩,
    (claim_C4_receive_exact_task 10 1 [.data [9]] (by decide) (by decide) (by decide)).1
      (.value [9]) true (by decide)⟩

/-- C5: for an AtMost receive task with `max > 0` (within the OS size
limit), the promise never fails: every fulfillment is a byte sequence of at
most `max` bytes, and in particular an elapsed deadline or a dead connection
resolves the promise with the bytes accumulated so far (possibly empty). -/
theorem claim_C5_receive_at_most_task (limit max : Nat) (oracle : List RecvEvent)
    (hmax : 0 < max) (hlim : max ≤ limit) (hvalid : ValidRecvOracle max oracle = true) :
    (∀ o alive, process_receive_task limit ⟨max, .MaxBytes⟩ oracle = .done o alive →
      ∃ l, o = .value l ∧ l.length ≤ max) ∧
    (∀ rest, process_receive_task limit ⟨max, .MaxBytes⟩ (.deadline :: rest)
        = .done (.value []) true) ∧
    (∀ rest, process_receive_task limit ⟨max, .MaxBytes⟩ (.closed :: rest)
        = .done (.value []) false) := by
  have hnotlt : ¬limit < max := by omega
  refine ⟨?_, ?_, ?_⟩
  · intro o alive h
    rw [process_receive_task, if_neg hnotlt] at h
    cases hrun : recvLoop .MaxBytes max [] oracle with
    | none => rw [hrun] at h; exact absurd h (by simp)
    | some p =>
      obtain ⟨o0, a0⟩ := p
      rw [hrun] at h
      simp only [ProcResult.done.injEq] at h
      obtain ⟨rfl, rfl⟩ := h
      exact recvLoop_max_spec max oracle [] (by simpa using hvalid) (Nat.zero_le _)
        _ _ hrun
  · intro rest
    rw [process_receive_task, if_neg hnotlt]
    rfl
  · intro rest
    rw [process_receive_task, if_neg hnotlt]
    rfl

/-- Witness for C5: deadline elapses right away; the promise resolves with
the empty byte sequence. -/
theorem claim_C5_receive_at_most_task_witness :
    ((0 : Nat) < 2 ∧ 2 ≤ 10 ∧ ValidRecvOracle 2 [.deadline] = true) ∧
    process_receive_task 10 ⟨2, .MaxBytes⟩ (.deadline :: [])
      = .done (.value []) true :=
  ⟨⟨by decide, by decide, by decide⟩,
    (claim_C5_receive_at_most_task 10 2 [.deadline] (by decide) (by decide)
      (by decide)).2.1 []⟩

end C2k
